import Mathlib

/-!
Verification of the traversal/pagination core of the fotolog exporter
(`runner.js` and its earlier unnamed revision).

The JavaScript source is shallowly embedded:
* promise-based recursion is modelled with an explicit `fuel` argument; an
  outcome of `none` means the promise never settles within any amount of
  fuel (divergence / an unhandled rejection), `some (.ok v)` means the
  promise resolves with `v`, and `some (.error e)` means it rejects with `e`;
* JavaScript exceptions thrown inside callbacks (`TypeError` from accessing a
  property of `null`/`undefined`) are modelled with `Except`;
* the single-threaded, one-request-in-flight execution of the source is
  deterministic, so the order in which the per-item fetches are started is
  captured by instrumenting each iterator with a trace of the requests it
  issues, in issue order.
-/

set_option maxRecDepth 8000

namespace SaveMyFotolog

/-- Errors thrown by the JavaScript runtime in the modelled code paths:
`typeError` for property access on `null`/`undefined` (e.g. `null[0]`,
`undefined.length`), `requestError` for `request(undefined)`. -/
inductive JsError
  | typeError
  | requestError
deriving DecidableEq, Repr

-- SequentialFetchIterator -----------------------------------------------------

/-- Embedding of `iterateLinks (links, index, memory, callback)` from
`src/runner.js` lines 54-72 (identical logic in `src/unnamed/part_000` lines
49-63), instrumented with a trace of the items the callback is invoked on.

Source details mirrored here:
* `links[index]` is `undefined` when `index` is out of bounds; the callback is
  invoked on it regardless, so the callback takes an `Option I`
  (`none` = `undefined`);
* `index === links.length - 1` is an integer comparison in JS (for an empty
  list it compares `0 === -1`, which is false); over `Nat` this is written as
  the equivalent `index + 1 = links.length`;
* when the callback's promise rejects, the source has no `.catch` and never
  calls `reject`, so the promise returned by `iterateLinks` never settles:
  the outcome is `none` (the error is only an unhandled rejection);
* on success the results are concatenated (`memory.concat(results)`) and
  either resolved (last index) or passed through the recursive call, whose
  own outcome (including divergence) is forwarded unchanged by
  `.then(resolve)`. -/
def iterateLinksT {I R E : Type} (fuel : Nat) (links : List I) (index : Nat)
    (memory : List R) (callback : Option I → Except E (List R)) :
    Option (Except E (List R)) × List (Option I) :=
  match fuel with
  | 0 => (none, [])
  | fuel + 1 =>
    let item := links[index]?
    match callback item with
    | .error _ => (none, [item])
    | .ok results =>
      let memory := memory ++ results
      if index + 1 = links.length then
        (some (.ok memory), [item])
      else
        let rec' := iterateLinksT fuel links (index + 1) memory callback
        (rec'.1, item :: rec'.2)

/-- The settlement outcome of `iterateLinks`, without the instrumentation. -/
def iterateLinks {I R E : Type} (fuel : Nat) (links : List I) (index : Nat)
    (memory : List R) (callback : Option I → Except E (List R)) :
    Option (Except E (List R)) :=
  (iterateLinksT fuel links index memory callback).1

/-- The promise returned by `iterateLinks links 0 [] callback` settles (with
some fuel) to some outcome. -/
def iterateSettles {I R E : Type} (links : List I)
    (callback : Option I → Except E (List R)) : Prop :=
  ∃ fuel r, iterateLinks fuel links 0 [] callback = some r

lemma iterateLinksT_ok_general {I R E : Type} (links : List I)
    (f : Option I → List R) :
    ∀ fuel index memory, index < links.length → links.length - index ≤ fuel →
      iterateLinksT fuel links index memory (fun i => Except.ok (ε := E) (f i)) =
        (some (.ok (memory ++ (links.drop index).flatMap fun l => f (some l))),
         (links.drop index).map some) := by
  intro fuel
  induction fuel with
  | zero =>
    intro index memory hidx hfuel
    omega
  | succ fuel ih =>
    intro index memory hidx hfuel
    have hitem : links[index]? = some links[index] := List.getElem?_eq_getElem hidx
    rw [iterateLinksT]
    simp only [hitem]
    have hdrop : links.drop index = links[index] :: links.drop (index + 1) :=
      List.drop_eq_getElem_cons hidx
    by_cases hlast : index + 1 = links.length
    · have hdrop1 : links.drop (index + 1) = [] := by
        rw [List.drop_eq_nil_iff]
        omega
      simp [hlast, hdrop, hdrop1]
    · have hidx1 : index + 1 < links.length := by omega
      have hfuel1 : links.length - (index + 1) ≤ fuel := by omega
      simp only [if_neg hlast]
      rw [ih (index + 1) (memory ++ f (some links[index])) hidx1 hfuel1]
      conv_rhs => rw [hdrop]
      simp only [List.flatMap_cons, List.map_cons, List.append_assoc]

/-- C1: over a non-empty input sequence whose per-item fetches all succeed,
`iterateLinks` resolves to the order-preserving concatenation of each fetch's
results in input order, and the callback-invocation trace is exactly the input
sequence in order (each fetch is issued once, one at a time, strictly in input
order — the sequential recursion starts fetch `k+1` only inside the `.then` of
fetch `k`). -/
theorem sequentialIterator_ok {I R E : Type} (links : List I)
    (f : Option I → List R) (h : links ≠ []) (fuel : Nat)
    (hfuel : links.length ≤ fuel) :
    iterateLinksT fuel links 0 [] (fun i => Except.ok (ε := E) (f i)) =
      (some (.ok (links.flatMap fun l => f (some l))), links.map some) := by
  have h0 : 0 < links.length := List.length_pos.mpr h
  have hgen := iterateLinksT_ok_general links (E := E) f fuel 0 [] h0 (by omega)
  simp only [List.drop_zero, List.nil_append] at hgen
  exact hgen

/-- Per-item results for the C1 witness: fetches over `[a, b, c]` return
`[1]`, `[2, 3]`, `[]`. -/
def c1f (i : Option String) : List Nat :=
  if i = some "a" then [1] else if i = some "b" then [2, 3] else []

/-- C1 witness: `iterateLinks` over `["a", "b", "c"]` with fetches returning
`[1]`, `[2, 3]`, `[]` resolves to `[1, 2, 3]` and issues the fetches exactly
in the order `a`, `b`, `c`. -/
theorem sequentialIterator_ok_witness :
    iterateLinksT 3 ["a", "b", "c"] 0 [] (fun i => Except.ok (ε := Unit) (c1f i)) =
      (some (.ok [1, 2, 3]), [some "a", some "b", some "c"]) := by
  have h := sequentialIterator_ok (E := Unit) ["a", "b", "c"] c1f
    (by decide) 3 (by decide)
  rw [h]
  rfl

-- C4: behaviour of iterateLinks when a fetch fails --------------------------

/-- `neverSettlesFrom links index memory callback` says the promise returned by
`iterateLinks (links, index, memory, callback)` never settles: for every
amount of fuel the outcome is still `none` — in particular it never rejects
and never resolves. -/
def neverSettlesFrom {I R E : Type} (links : List I) (index : Nat)
    (memory : List R) (callback : Option I → Except E (List R)) : Prop :=
  ∀ fuel, iterateLinks fuel links index memory callback = none

/-- Callback for the C4 counterexample: the fetch for `"a"` fails, every other
fetch succeeds with `[0]`. -/
def c4cb (i : Option String) : Except String (List Nat) :=
  if i = some "a" then .error "boom" else .ok [0]

/-- C4 counterexample: with inputs `["a", "b"]` and the fetch for `"a"`
failing, the promise returned by `iterateLinks` never settles — in particular
it never rejects, so the failure is not propagated as a rejection (it is only
an unhandled rejection of the inner promise); the claim that the failure
"propagates immediately as a rejection" is false of the code. -/
theorem iterateLinks_error_counterexample :
    neverSettlesFrom ["a", "b"] 0 [] c4cb ∧
      (iterateLinksT 1 ["a", "b"] 0 [] c4cb).2 = [some "a"] := by
  constructor
  · intro fuel
    cases fuel with
    | zero => rfl
    | succ fuel => rfl
  · rfl

/-- C4 amended: if the fetch for the item at the current index fails, the
iteration aborts immediately — the callback is invoked on that item only, no
later fetch is ever started — and the promise returned by `iterateLinks`
never settles: it neither resolves (so no partial results are returned) nor
rejects (the failure is only observable as an unhandled rejection). -/
theorem iterateLinks_error_aborts {I R E : Type} (links : List I) (index : Nat)
    (memory : List R) (callback : Option I → Except E (List R)) (e : E)
    (h : callback links[index]? = .error e) :
    neverSettlesFrom links index memory callback ∧
      ∀ fuel, 1 ≤ fuel →
        (iterateLinksT fuel links index memory callback).2 = [links[index]?] := by
  constructor
  · intro fuel
    cases fuel with
    | zero => rfl
    | succ fuel =>
      rw [iterateLinks, iterateLinksT]
      simp [h]
  · intro fuel hfuel
    cases fuel with
    | zero => omega
    | succ fuel =>
      rw [iterateLinksT]
      simp [h]

/-- C4 amended witness at the concrete counterexample input. -/
theorem iterateLinks_error_aborts_witness :
    neverSettlesFrom ["a", "b"] 0 ([2] : List Nat) c4cb ∧
      ∀ fuel, 1 ≤ fuel →
        (iterateLinksT fuel ["a", "b"] 0 ([2] : List Nat) c4cb).2 =
          [some "a"] := by
  exact iterateLinks_error_aborts ["a", "b"] 0 [2] c4cb "boom" rfl

-- C9: iterateLinks on the empty input sequence ------------------------------

lemma iterateLinksT_nil_none {I R E : Type}
    (callback : Option I → Except E (List R)) :
    ∀ fuel index memory,
      (iterateLinksT (I := I) fuel [] index memory callback).1 = none := by
  intro fuel
  induction fuel with
  | zero => intro index memory; rfl
  | succ fuel ih =>
    intro index memory
    rw [iterateLinksT]
    cases hcb : callback ([] : List I)[index]? with
    | error e => rfl
    | ok results => simpa using ih (index + 1) (memory ++ results)

/-- C9: on the empty input sequence, `iterateLinks` invokes the fetch callback
on an `undefined` item (the trace starts with `none`) and its promise never
settles — `0 === links.length - 1` is `0 === -1` in JS, so the recursion never
resolves; every caller therefore implicitly requires at least one item. -/
theorem iterateLinks_empty_diverges {I R E : Type} (memory : List R)
    (callback : Option I → Except E (List R)) :
    neverSettlesFrom [] 0 memory callback ∧
      ∀ fuel, 1 ≤ fuel →
        (iterateLinksT (I := I) fuel [] 0 memory callback).2.head? =
          some none := by
  constructor
  · intro fuel
    exact iterateLinksT_nil_none callback fuel 0 memory
  · intro fuel hfuel
    cases fuel with
    | zero => omega
    | succ fuel =>
      rw [iterateLinksT]
      cases hcb : callback ([] : List I)[0]? with
      | error e => rfl
      | ok results => rfl

/-- C9 witness: concrete instance with an always-succeeding callback. -/
theorem iterateLinks_empty_diverges_witness :
    neverSettlesFrom ([] : List String) 0 ([] : List Nat)
        (fun _ => Except.ok (ε := Unit) [7]) ∧
      ∀ fuel, 1 ≤ fuel →
        (iterateLinksT fuel ([] : List String) 0 ([] : List Nat)
            (fun _ => Except.ok (ε := Unit) [7])).2.head? = some none := by
  exact iterateLinks_empty_diverges [] (fun _ => Except.ok [7])

-- CommentPaginator -----------------------------------------------------------

/-- Embedding of `iterateCommentRequests (id, offset, memory)` from
`src/runner.js` lines 309-323 (identical in `src/unnamed/part_000` lines
279-293), instrumented with the trace of offsets requested, in issue order.

`batches offset` stands for the (already normalized) comment list that
`fetchComments (id, offset)` resolves with; the post id and the network are
fixed throughout, so they are abstracted into `batches`. The source
concatenates the batch into `memory`, resolves when the batch is empty, and
otherwise recurses at `offset + 45`, forwarding the recursive outcome via
`.then(resolve)`. -/
def iterateCommentRequestsT {C : Type} (fuel : Nat) (batches : Nat → List C)
    (offset : Nat) (memory : List C) : Option (List C) × List Nat :=
  match fuel with
  | 0 => (none, [])
  | fuel + 1 =>
    let results := batches offset
    let memory := memory ++ results
    if results.length = 0 then
      (some memory, [offset])
    else
      let rec' := iterateCommentRequestsT fuel batches (offset + 45) memory
      (rec'.1, offset :: rec'.2)

/-- The settlement outcome of `iterateCommentRequests`, without the trace. -/
def iterateCommentRequests {C : Type} (fuel : Nat) (batches : Nat → List C)
    (offset : Nat) (memory : List C) : Option (List C) :=
  (iterateCommentRequestsT fuel batches offset memory).1

/-- Embedding of the paginated part of `getPostComments` (runner.js lines
299-302): the embedded comments collected from the post page's markup seed
the accumulator, and pagination starts at offset 45. -/
def getPostComments {C : Type} (fuel : Nat) (embedded : List C)
    (batches : Nat → List C) : Option (List C) :=
  iterateCommentRequests fuel batches 45 embedded

lemma iterateCommentRequestsT_spec {C : Type} (batches : Nat → List C) :
    ∀ n offset memory fuel, (∀ k, k < n → batches (offset + 45 * k) ≠ []) →
      batches (offset + 45 * n) = [] → n + 1 ≤ fuel →
      iterateCommentRequestsT fuel batches offset memory =
        (some (memory ++
            (List.range (n + 1)).flatMap fun i => batches (offset + 45 * i)),
         (List.range (n + 1)).map fun i => offset + 45 * i) := by
  intro n
  induction n with
  | zero =>
    intro offset memory fuel hne h0 hfuel
    obtain ⟨fuel, rfl⟩ : ∃ f, fuel = f + 1 := ⟨fuel - 1, by omega⟩
    rw [iterateCommentRequestsT]
    have hb : batches offset = [] := by simpa using h0
    have h1 : List.range 1 = [0] := rfl
    simp [hb, h1]
  | succ n ih =>
    intro offset memory fuel hne hlast hfuel
    obtain ⟨fuel, rfl⟩ : ∃ f, fuel = f + 1 := ⟨fuel - 1, by omega⟩
    rw [iterateCommentRequestsT]
    have hb : batches offset ≠ [] := by
      have h0 := hne 0 (by omega)
      simpa using h0
    have hlen : ¬(batches offset).length = 0 := by
      simpa [List.length_eq_zero] using hb
    simp only [if_neg hlen]
    have hne' : ∀ k, k < n → batches (offset + 45 + 45 * k) ≠ [] := by
      intro k hk
      have heq : offset + 45 + 45 * k = offset + 45 * (k + 1) := by ring
      rw [heq]
      exact hne (k + 1) (by omega)
    have hlast' : batches (offset + 45 + 45 * n) = [] := by
      have heq : offset + 45 + 45 * n = offset + 45 * (n + 1) := by ring
      rw [heq]
      exact hlast
    rw [ih (offset + 45) (memory ++ batches offset) fuel hne' hlast' (by omega)]
    have hrange : List.range (n + 1 + 1) = 0 :: (List.range (n + 1)).map Nat.succ :=
      List.range_succ_eq_map (n + 1)
    have hfun : ∀ i, offset + 45 * Nat.succ i = offset + 45 + 45 * i := by
      intro i
      omega
    conv_rhs => rw [hrange]
    simp only [List.flatMap_cons, List.map_cons, List.flatMap_map, List.map_map,
      Function.comp_def, hfun, Nat.mul_zero, Nat.add_zero, List.append_assoc]

/-- C2: for every post, the comment paginator issues batch requests at
offsets 45, 90, 135, … — a strictly increasing trace — up to and including
the first offset whose batch is empty (`n` is the number of non-empty
batches), makes no request at any later offset, and resolves with exactly the
embedded comments followed by the batches in offset order (the final, empty
batch contributes nothing, so this is the concatenation of all non-empty
batches). -/
theorem commentPaginator_spec {C : Type} (embedded : List C)
    (batches : Nat → List C) (n : Nat)
    (hne : ∀ k, k < n → batches (45 * (k + 1)) ≠ [])
    (hempty : batches (45 * (n + 1)) = []) (fuel : Nat)
    (hfuel : n + 1 ≤ fuel) :
    iterateCommentRequestsT fuel batches 45 embedded =
      (some (embedded ++
          (List.range (n + 1)).flatMap fun i => batches (45 * (i + 1))),
       (List.range (n + 1)).map fun i => 45 * (i + 1)) ∧
      ((List.range (n + 1)).map fun i => 45 * (i + 1)).Pairwise (· < ·) := by
  have hfun : ∀ i, (45 : Nat) + 45 * i = 45 * (i + 1) := by
    intro i
    ring
  constructor
  · have hne' : ∀ k, k < n → batches (45 + 45 * k) ≠ [] := by
      intro k hk
      rw [hfun k]
      exact hne k hk
    have hempty' : batches (45 + 45 * n) = [] := by
      rw [hfun n]
      exact hempty
    rw [iterateCommentRequestsT_spec batches n 45 embedded fuel hne' hempty' hfuel]
    simp only [hfun]
  · have hp := List.pairwise_lt_range (n + 1)
    have hmono : ∀ a b : Nat, a < b → 45 * (a + 1) < 45 * (b + 1) := by
      intro a b hab
      omega
    exact List.Pairwise.map _ hmono hp

/-- Batches for the C2 witness: offset 45 returns 2 comments, offset 90
returns none. -/
def c2batches (offset : Nat) : List Nat :=
  if offset = 45 then [1, 2] else []

/-- C2 witness: with embedded comments `[10, 20]` and batches
`45 → [1, 2]`, `90 → []`, the paginator requests exactly offsets 45 and 90
(none at 135) and resolves with the embedded comments plus the two items
from offset 45. -/
theorem commentPaginator_spec_witness :
    iterateCommentRequestsT 2 c2batches 45 [10, 20] =
        (some [10, 20, 1, 2], [45, 90]) ∧
      ([45, 90] : List Nat).Pairwise (· < ·) := by
  have h := commentPaginator_spec [10, 20] c2batches 1 (by decide) (by decide)
    2 (by decide)
  constructor
  · rw [h.1]
    rfl
  · exact h.2

-- Comment batch normalization (fetchComments) --------------------------------

/-- A raw comment payload as delivered by the comments endpoint. -/
structure RawComment where
  avatar : String
  poster_user_name : String
  posted : String
  message : String
deriving DecidableEq, Repr

/-- A mapped comment, as produced by `fetchComments`; `date` is `none` when
`posted` has no second whitespace-delimited token (JS `undefined`). -/
structure Comment where
  avatarImgUrl : String
  username : String
  date : Option String
  message : String
deriving DecidableEq, Repr

/-- Worker for JS `String.prototype.split(/\s+/)`: `cur` is the piece being
accumulated, `prevWs` whether the previous character belonged to a whitespace
run (so further whitespace extends the same separator instead of producing an
empty piece). -/
def jsSplitWsGo : List Char → String → Bool → List String
  | [], cur, _ => [cur]
  | c :: cs, cur, prevWs =>
    if c.isWhitespace then
      if prevWs then jsSplitWsGo cs cur true
      else cur :: jsSplitWsGo cs "" true
    else jsSplitWsGo cs (cur.push c) false

/-- JS `s.split(/\s+/)`: splits on maximal whitespace runs; a leading run
contributes a leading empty piece and a trailing run a trailing empty piece
(`"".split` gives `[""]`). -/
def jsSplitWs (s : String) : List String :=
  jsSplitWsGo s.toList "" false

/-- The per-comment mapping in `fetchComments` (runner.js lines 350-357):
`avatar`, `poster_user_name`, the second whitespace-delimited token of
`posted` (JS `comment.posted.split(/\s+/)[1]`, `undefined` when absent), and
`message`. -/
def mapRawComment (c : RawComment) : Comment :=
  { avatarImgUrl := c.avatar
    username := c.poster_user_name
    date := (jsSplitWs c.posted)[1]?
    message := c.message }

/-- The `comments` field of a batch response: a JSON array, a key-indexed
object (keys are the decimal numerals of the given naturals, listed in
insertion order; a JS object cannot repeat a key), or a falsy value
(`absent`). -/
inductive CommentsPayload
  | arr (cs : List RawComment)
  | keyed (entries : List (Nat × RawComment))
  | absent

/-- A comment-batch response body: `{success: bool, comments: array|map}`. -/
structure CommentsResponse where
  success : Bool
  comments : CommentsPayload

/-- Ordering of keyed entries by their numeric key. -/
def keyLe (a b : Nat × RawComment) : Prop :=
  a.1 ≤ b.1

instance : DecidableRel keyLe :=
  fun a b => Nat.decLe a.1 b.1

instance : IsTotal (Nat × RawComment) keyLe :=
  ⟨fun a b => Nat.le_total a.1 b.1⟩

instance : IsTrans (Nat × RawComment) keyLe :=
  ⟨fun _ _ _ h1 h2 => Nat.le_trans h1 h2⟩

/-- `Object.keys` on an object whose keys are all array indices enumerates
them in ascending numeric order (ECMAScript OrdinaryOwnPropertyKeys), so
`Object.keys(comments).map(index => comments[index])` lists the values by
ascending key: modelled by sorting the entries by key and taking the
values. -/
def objectKeysValues (entries : List (Nat × RawComment)) : List RawComment :=
  (List.insertionSort keyLe entries).map Prod.snd

/-- Embedding of the response handling of `fetchComments` (runner.js lines
336-357): `!response.success || !comments` resolves `[]`; the remaining
subterm `(!Array.isArray(comments) && Object.keys(comments) === 0)` compares
an array to the number `0` and is therefore always false, so it never makes
the condition true; a key-indexed payload is converted to an array via
`Object.keys(...).map(...)`; finally every raw comment is mapped by
`mapRawComment`. The POST itself and `JSON.parse` are outside the model. -/
def fetchComments (resp : CommentsResponse) : List Comment :=
  if resp.success = false then []
  else
    match resp.comments with
    | .absent => []
    | .arr cs => cs.map mapRawComment
    | .keyed entries => (objectKeysValues entries).map mapRawComment

/-- C5: a key-indexed comments payload is normalized by ascending key order —
the sorted entries have ascending keys and are a permutation of the given
entries — and `fetchComments` produces exactly the same ordered sequence of
mapped comments as the equivalent array-shaped response carrying the same
payloads in that ascending-key order. -/
theorem fetchComments_keyed_normalizes (entries : List (Nat × RawComment)) :
    ((List.insertionSort keyLe entries).map Prod.fst).Sorted (· ≤ ·) ∧
      (List.insertionSort keyLe entries).Perm entries ∧
      fetchComments { success := true, comments := .keyed entries } =
        fetchComments { success := true, comments := .arr ((List.insertionSort keyLe entries).map Prod.snd) } := by
  refine ⟨?_, List.perm_insertionSort keyLe entries, rfl⟩
  have hs := List.sorted_insertionSort keyLe entries
  exact List.pairwise_map.mpr hs

-- URL numeric part (getUrlNumericPart) ---------------------------------------

/-- The numeric value of a list of decimal digit characters (JS `parseInt`
applied to the digit-only capture group; the ids involved are far below the
precision limit of JS numbers). -/
def digitsToNat (ds : List Char) : Nat :=
  ds.foldl (fun n c => 10 * n + (c.toNat - 48)) 0

/-- The scan performed by `url.match(/\/(\d+)(?:\/|$)/)` (runner.js line 46,
part_000 line 41): a match at a position requires a literal `/`, then one or
more digits, then `/` or the end of the string. The regex engine tries
positions left to right; at one position, greedy matching of `\d+` is
equivalent to taking the maximal digit run, because giving back a digit would
put a digit where `/` or the end is required. Returns the value of the first
capture group of the leftmost match. -/
def findUrlNumeric : List Char → Option Nat
  | [] => none
  | c :: cs =>
    if c = '/' then
      let ds := cs.takeWhile Char.isDigit
      let rest := cs.dropWhile Char.isDigit
      if ds ≠ [] ∧ (rest = [] ∨ rest.head? = some '/') then some (digitsToNat ds)
      else findUrlNumeric cs
    else findUrlNumeric cs

/-- Embedding of `getUrlNumericPart (url)`: when the regex does not match,
`url.match(...)` is `null` and `null[1]` throws a `TypeError`; otherwise the
capture group is parsed with `parseInt`. -/
def getUrlNumericPart (url : String) : Except JsError Nat :=
  match findUrlNumeric url.toList with
  | some n => .ok n
  | none => .error .typeError

/-- Splits a character list at `/` characters: the first component is the
text before the first `/`, the second lists the path segments, one per
`/`. -/
def splitSlash : List Char → List Char × List (List Char)
  | [] => ([], [])
  | c :: cs =>
    if c = '/' then ([], (splitSlash cs).1 :: (splitSlash cs).2)
    else (c :: (splitSlash cs).1, (splitSlash cs).2)

/-- A complete numeric path segment: non-empty and consisting of decimal
digits only. -/
def numericSeg (seg : List Char) : Bool :=
  !seg.isEmpty && seg.all Char.isDigit

/-- Modelled from the spec's words for C8 ("parse the trailing numeric path
segment from the post's URL"): the last `/`-delimited segment of the URL,
required to be numeric. -/
def trailingNumericSegment (url : String) : Option Nat :=
  let parts := (splitSlash url.toList).1 :: (splitSlash url.toList).2
  match parts.getLast? with
  | some seg => if numericSeg seg then some (digitsToNat seg) else none
  | none => none

/-- The first complete numeric path segment of a URL: among the
`/`-introduced segments, the leftmost one that is non-empty and all
digits. -/
def firstNumericSegment (url : String) : Option Nat :=
  ((splitSlash url.toList).2.find? numericSeg).map digitsToNat

lemma splitSlash_fst (cs : List Char) :
    (splitSlash cs).1 = cs.takeWhile (fun c => c != '/') := by
  induction cs with
  | nil => rfl
  | cons x cs ih =>
    by_cases hx : x = '/'
    · subst hx
      simp [splitSlash, List.takeWhile_cons]
    · simp [splitSlash, hx, List.takeWhile_cons, ih]

lemma splitSlash_snd_cons (x : Char) (cs : List Char) (hx : ¬x = '/') :
    (splitSlash (x :: cs)).2 = (splitSlash cs).2 := by
  simp [splitSlash, hx]

lemma takeWhile_slash_all_digit (cs : List Char) :
    (cs.takeWhile (fun c => c != '/')).all Char.isDigit = true ↔
      (cs.dropWhile Char.isDigit = [] ∨
        (cs.dropWhile Char.isDigit).head? = some '/') := by
  induction cs with
  | nil => simp
  | cons x cs ih =>
    by_cases hx : x = '/'
    · subst hx
      simp [List.takeWhile_cons, List.dropWhile_cons]
    · by_cases hd : Char.isDigit x
      · simpa [List.takeWhile_cons, List.dropWhile_cons, hx, hd] using ih
      · simp [List.takeWhile_cons, List.dropWhile_cons, hx, hd]

lemma takeWhile_digit_eq_slash (cs : List Char)
    (h : (cs.takeWhile (fun c => c != '/')).all Char.isDigit = true) :
    cs.takeWhile Char.isDigit = cs.takeWhile (fun c => c != '/') := by
  induction cs with
  | nil => rfl
  | cons x cs ih =>
    by_cases hx : x = '/'
    · subst hx
      simp [List.takeWhile_cons]
    · by_cases hd : Char.isDigit x
      · simp only [List.takeWhile_cons, hx] at h ⊢
        simp only [bne_iff_ne, ne_eq, hx, not_false_eq_true, if_true] at h ⊢
        simp only [List.all_cons, hd, Bool.true_and] at h
        simp [hd, ih h]
      · exfalso
        simp [List.takeWhile_cons, hx, hd] at h

lemma numericHead_iff (cs : List Char) :
    numericSeg (cs.takeWhile (fun c => c != '/')) = true ↔
      (cs.takeWhile Char.isDigit ≠ [] ∧
        (cs.dropWhile Char.isDigit = [] ∨
          (cs.dropWhile Char.isDigit).head? = some '/')) := by
  cases cs with
  | nil => simp [numericSeg]
  | cons x cs =>
    by_cases hx : x = '/'
    · subst hx
      simp [numericSeg, List.takeWhile_cons]
    · by_cases hd : Char.isDigit x
      · have hrw := takeWhile_slash_all_digit cs
        simp [numericSeg, List.takeWhile_cons, List.dropWhile_cons, hx, hd, hrw]
      · simp [numericSeg, List.takeWhile_cons, List.dropWhile_cons, hx, hd]

lemma findUrlNumeric_cons_slash (cs : List Char) :
    findUrlNumeric ('/' :: cs) =
      if cs.takeWhile Char.isDigit ≠ [] ∧
          (cs.dropWhile Char.isDigit = [] ∨
            (cs.dropWhile Char.isDigit).head? = some '/') then
        some (digitsToNat (cs.takeWhile Char.isDigit))
      else findUrlNumeric cs := rfl

lemma findUrlNumeric_cons_other (x : Char) (cs : List Char) (hx : ¬x = '/') :
    findUrlNumeric (x :: cs) = findUrlNumeric cs := by
  rw [findUrlNumeric]
  simp [hx]

/-- The regex scan of `getUrlNumericPart` finds exactly the first complete
numeric path segment of the URL. -/
lemma findUrlNumeric_eq_segments (cs : List Char) :
    findUrlNumeric cs = ((splitSlash cs).2.find? numericSeg).map digitsToNat := by
  induction cs with
  | nil => rfl
  | cons x cs ih =>
    by_cases hx : x = '/'
    · subst hx
      have hsnd : (splitSlash ('/' :: cs)).2 = (splitSlash cs).1 :: (splitSlash cs).2 := by
        simp [splitSlash]
      rw [hsnd]
      have hfst := splitSlash_fst cs
      by_cases hcond : numericSeg ((splitSlash cs).1) = true
      · have hc : cs.takeWhile Char.isDigit ≠ [] ∧
            (cs.dropWhile Char.isDigit = [] ∨
              (cs.dropWhile Char.isDigit).head? = some '/') := by
          rw [← numericHead_iff, ← hfst]
          exact hcond
        have halldig : (cs.takeWhile (fun c => c != '/')).all Char.isDigit = true := by
          have hnum := hcond
          rw [hfst, numericSeg] at hnum
          exact (Bool.and_eq_true_iff.mp hnum).2
        have hds : cs.takeWhile Char.isDigit = (splitSlash cs).1 := by
          rw [hfst]
          exact takeWhile_digit_eq_slash cs halldig
        rw [findUrlNumeric_cons_slash, List.find?_cons_of_pos _ hcond, if_pos hc, hds]
        rfl
      · have hc : ¬(cs.takeWhile Char.isDigit ≠ [] ∧
            (cs.dropWhile Char.isDigit = [] ∨
              (cs.dropWhile Char.isDigit).head? = some '/')) := by
          rw [← numericHead_iff, ← hfst]
          simpa using hcond
        rw [findUrlNumeric_cons_slash, List.find?_cons_of_neg _ (by simpa using hcond),
          if_neg hc]
        exact ih
    · rw [findUrlNumeric_cons_other x cs hx, splitSlash_snd_cons x cs hx]
      exact ih

/-- C8 counterexample: for the post URL `http://www.fotolog.com/12/post/34`,
whose trailing numeric path segment is `34`, the code parses `12` — the
regex `\/(\d+)(?:\/|$)` takes the leftmost complete numeric segment. -/
theorem getUrlNumericPart_counterexample :
    getUrlNumericPart "http://www.fotolog.com/12/post/34" = .ok 12 ∧
      trailingNumericSegment "http://www.fotolog.com/12/post/34" = some 34 ∧
      (12 : Nat) ≠ 34 := by
  refine ⟨rfl, rfl, by decide⟩

-- Post data assembly (getPostData) -------------------------------------------

/-- One-or-more munch: the maximal non-empty run of characters satisfying `p`
at the front of the list (run, rest), or `none` when the first character
fails `p`. -/
def munch1 (p : Char → Bool) : List Char → Option (List Char × List Char)
  | [] => none
  | c :: cs =>
    if p c then some (c :: cs.takeWhile p, cs.dropWhile p)
    else none

/-- The alternatives of the caption regex's final group, in source order. -/
def viewsWords : List String :=
  ["Views", "Vistas", "Vues", "Visualizações"]

/-- Attempted match of the date-caption regex
`[^\s]+\s+[^\s]+\s+[^\s]+\s+\d+\s+(?:Views|Vistas|Vues|Visualizações)`
(runner.js line 249) at one position. At every boundary of the pattern the
adjacent character classes are disjoint (`[^\s]`/`\s`, `\s`/`\d`,
`\d`/`\s`, and the words start with letters), so greedy matching with
backtracking coincides with maximal munch; the alternation tries the words
left to right and matches a prefix of the remainder. Returns the matched
text. -/
def matchCaptionAt (cs : List Char) : Option (List Char) := do
  let (t1, r1) ← munch1 (fun c => !c.isWhitespace) cs
  let (w1, r2) ← munch1 Char.isWhitespace r1
  let (t2, r3) ← munch1 (fun c => !c.isWhitespace) r2
  let (w2, r4) ← munch1 Char.isWhitespace r3
  let (t3, r5) ← munch1 (fun c => !c.isWhitespace) r4
  let (w3, r6) ← munch1 Char.isWhitespace r5
  let (d, r7) ← munch1 Char.isDigit r6
  let (w4, r8) ← munch1 Char.isWhitespace r7
  let w ← viewsWords.findSome? fun v =>
    if v.toList.isPrefixOf r8 then some v.toList else none
  return t1 ++ w1 ++ t2 ++ w2 ++ t3 ++ w3 ++ d ++ w4 ++ w

/-- Leftmost match of the date-caption regex: positions are tried left to
right, as a regex engine does. -/
def matchCaption : List Char → Option (List Char)
  | [] => none
  | c :: cs =>
    match matchCaptionAt (c :: cs) with
    | some m => some m
    | none => matchCaption cs

/-- JS `a || b` for an attribute read: `undefined` and the empty string are
falsy. -/
def jsOrStr (a : Option String) (b : String) : String :=
  match a with
  | some s => if s = "" then b else s
  | none => b

/-- The `localisedDateFormats` table (runner.js lines 100-106); indexing it
with any other language yields JS `undefined`. -/
def localisedDateFormats (lang : String) : Option String :=
  if lang = "it" ∨ lang = "pt" ∨ lang = "fr" ∨ lang = "es" then
    some "DD MMMM YYYY"
  else if lang = "en" then some "MMMM DD YYYY"
  else none

/-- The parsed moment date, abstracted to the three renderings the program
uses (`format('YYYY')`, `format('MM')`, `format('DD')`); `moment` itself is
an external collaborator outside the traversal core. -/
structure MDate where
  yyyy : String
  mm : String
  dd : String
deriving DecidableEq, Repr

/-- The fields `getPostData` reads from a fetched post page: the `lang`
attribute of `html` (`none` = absent), the `src` attribute of the photo
(`none` = absent) and the text of `#description_photo` (empty when
absent). -/
structure PostPage where
  lang : Option String
  imageUrl : Option String
  description : String
deriving DecidableEq, Repr

/-- The record assembled by `getPostData`; `comments := none` models the
`comments` field being absent from the JS object (skip-comments mode). -/
structure PostData where
  id : Nat
  imageUrl : Option String
  description : String
  date : MDate
  comments : Option (List Comment)
deriving DecidableEq, Repr

/-- Embedding of `getPostData (link)` from runner.js lines 243-274, given the
already-fetched page. `momentParse` abstracts `moment(str, fmt)` after
`moment.locale(lang)`: it receives the string passed to `moment` (the first
three whitespace-delimited tokens of the caption match, joined by single
spaces) and the format looked up for the page language. `getComments`
abstracts the outcome of `getPostComments` for this post (`none` = its
promise never settles). The overall result is `none` when the promise never
settles and `some (.error e)` when the callback throws `e` (an uncaught
exception inside the `request` callback: the promise never settles and the
process crashes — either way no record is delivered).

Evaluation order mirrors the source: `data.id` (line 251, throws when the
URL has no numeric segment), `data.imageUrl`, `data.description`, the
date-caption match (line 256, `match(...)[0]` throws when there is no
match), then either an immediate resolve (skip-comments, lines 258-263) or
comment retrieval (lines 265-271). -/
def getPostData (link : String) (page : PostPage) (skip : Bool)
    (getComments : Option (List Comment))
    (momentParse : String → Option String → MDate) :
    Option (Except JsError PostData) :=
  let lang := jsOrStr page.lang "en"
  match findUrlNumeric link.toList with
  | none => some (.error .typeError)
  | some idNum =>
    match matchCaption page.description.toList with
    | none => some (.error .typeError)
    | some m =>
      let dateStr := " ".intercalate ((jsSplitWs (String.mk m)).take 3)
      let date := momentParse dateStr (localisedDateFormats lang)
      let data : PostData :=
        { id := idNum
          imageUrl := page.imageUrl
          description := page.description
          date := date
          comments := none }
      if skip then some (.ok data)
      else
        match getComments with
        | none => none
        | some cs => some (.ok { data with comments := some cs })

/-- `producesRecord link page skip gc mp` says the modelled `getPostData`
call resolves with some assembled record. -/
def producesRecord (link : String) (page : PostPage) (skip : Bool)
    (gc : Option (List Comment)) (mp : String → Option String → MDate) : Prop :=
  ∃ pd : PostData, getPostData link page skip gc mp = some (.ok pd)

/-- The concrete post page for C6: a valid link will be supplied, but the
description lacks the "views" caption. -/
def c6page : PostPage :=
  { lang := some "en"
    imageUrl := some "http://img.example/p.jpg"
    description := "just a description" }

/-- Fixed moment stub used at concrete inputs. -/
def mpStub : String → Option String → MDate :=
  fun _ _ => ⟨"", "", ""⟩

/-- C6 counterexample: on a post page whose description lacks the "views"
caption, `getPostData` throws a `TypeError` (`match(...)[0]` on `null`) and
produces no record at all — contradicting the claim that it still produces
`id`, `imageUrl` and `description` and only omits the date. -/
theorem getPostData_missingCaption_counterexample :
    getPostData "http://www.fotolog.com/alice/123" c6page true (some []) mpStub
        = some (.error .typeError) ∧
      ¬producesRecord "http://www.fotolog.com/alice/123" c6page true (some [])
        mpStub := by
  have h0 : getPostData "http://www.fotolog.com/alice/123" c6page true
      (some []) mpStub = some (.error .typeError) := rfl
  refine ⟨h0, ?_⟩
  rintro ⟨pd, h⟩
  rw [h0] at h
  simp at h

/-- C6 amended: a description lacking the "views" caption is fatal for the
post — `getPostData` throws a `TypeError` and delivers no record (rather
than a record carrying `id`, `imageUrl`, `description` without a date). -/
theorem getPostData_missingCaption_fatal (link : String) (page : PostPage)
    (skip : Bool) (gc : Option (List Comment))
    (mp : String → Option String → MDate)
    (h : matchCaption page.description.toList = none) :
    getPostData link page skip gc mp = some (.error .typeError) := by
  simp only [getPostData, h]
  cases findUrlNumeric link.toList <;> simp

/-- C6 amended witness at the concrete page without a caption. -/
theorem getPostData_missingCaption_fatal_witness :
    matchCaption ("just a description").toList = none ∧
      getPostData "http://www.fotolog.com/alice/123" c6page false none mpStub
        = some (.error .typeError) := by
  refine ⟨by decide, ?_⟩
  exact getPostData_missingCaption_fatal "http://www.fotolog.com/alice/123"
    c6page false none mpStub (by decide)

/-- C8 amended: the record's id is parsed from the FIRST complete numeric
path segment of the post's URL — the leftmost `/` followed by digits only,
up to the next `/` or the end — not the trailing one; and when the URL has
no complete numeric segment the match is `null`, the parse throws, and this
is fatal for the post: `getPostData` delivers a `TypeError` and no
record. -/
theorem getUrlNumericPart_first_segment (url : String) :
    (getUrlNumericPart url =
      match firstNumericSegment url with
      | some n => .ok n
      | none => .error .typeError) ∧
      (∀ (page : PostPage) (skip : Bool) (gc : Option (List Comment))
          (mp : String → Option String → MDate),
        firstNumericSegment url = none →
        getPostData url page skip gc mp = some (.error .typeError)) := by
  have hchar := findUrlNumeric_eq_segments url.toList
  constructor
  · rw [getUrlNumericPart, hchar, firstNumericSegment]
  · intro page skip gc mp hnone
    have hfind : findUrlNumeric url.toList = none := hchar.trans hnone
    simp only [getPostData, hfind]

/-- C8 amended witness: a post URL with no complete numeric path segment. -/
theorem getUrlNumericPart_first_segment_witness :
    firstNumericSegment "http://www.fotolog.com/alice" = none ∧
      getPostData "http://www.fotolog.com/alice" c6page false none mpStub
        = some (.error .typeError) := by
  refine ⟨by decide, ?_⟩
  exact (getUrlNumericPart_first_segment "http://www.fotolog.com/alice").2
    c6page false none mpStub (by decide)

-- Persistence (savePostDataToDisk, runner.js revision) -----------------------

/-- The output directory name for a run (runner.js line 99). -/
def dirName (username : String) : String :=
  "fotolog_" ++ username ++ "_data"

/-- JS template interpolation of a possibly-undefined string value. -/
def jsShow (a : Option String) : String :=
  match a with
  | some s => s
  | none => "undefined"

/-- The rendering of one comment in the transcript (runner.js line 407). -/
def renderComment (c : Comment) : String :=
  c.username ++ " on " ++ jsShow c.date ++ ":\n\n" ++ c.message

/-- The banner between the description and the transcript (runner.js lines
402-405). -/
def commentsBanner : String :=
  "\n\n" ++ "========================================\n" ++
    "                COMMENTS\n" ++
    "========================================\n\n"

/-- The divider joining rendered comments (runner.js line 408). -/
def commentsDivider : String :=
  "\n\n-------------------\n\n"

/-- The observable result of one `savePostDataToDisk` call: the text files
synchronously written (path, content), the path the image stream is piped to
(when that statement is reached), and whether the promise resolved (`.ok`,
fired by the image stream's `close` event) or rejected (`.error`, thrown
inside the executor before the asynchronous `close` could fire). -/
structure SaveResult where
  files : List (String × String)
  imageTo : Option String
  outcome : Except JsError Unit

/-- Embedding of `savePostDataToDisk (postData)` from runner.js lines
382-417, with `he.decode` abstracted as `heDecode`. Behaviour mirrored:
* the `.txt` content is the decoded description followed — unless comments
  were skipped — by the banner and the decoded transcript; evaluating that
  argument reads `postData.comments.map`, which throws a `TypeError` when
  the field is absent, so the promise rejects before anything is written;
* the two `mkdirSync` calls sit in try/catch blocks whose errors are
  ignored, so directory creation is not part of the observable result;
* after `writeFileSync`, `request(postData.imageUrl)` starts the image
  stream; `request(undefined)` throws instead, rejecting the promise;
* the final progress line reads `postData.comments.length`
  unconditionally; when the field is absent this throws inside the executor
  before the asynchronous `close` event can fire, so the promise rejects
  even though the text file was already written. -/
def savePostDataToDisk (heDecode : String → String) (username : String)
    (skip : Bool) (pd : PostData) : SaveResult :=
  let filePath := dirName username ++ "/" ++ pd.date.yyyy ++ "/" ++ pd.date.mm
  let filePrefix := pd.date.yyyy ++ pd.date.mm ++ pd.date.dd ++ "_"
  let txtPath := filePath ++ "/" ++ filePrefix ++ toString pd.id ++ ".txt"
  let jpgPath := filePath ++ "/" ++ filePrefix ++ toString pd.id ++ ".jpg"
  match skip, pd.comments with
  | false, none =>
    { files := [], imageTo := none, outcome := .error .typeError }
  | _, _ =>
    let transcript :=
      if skip then ""
      else
        commentsBanner ++
          heDecode (String.intercalate commentsDivider
            ((pd.comments.getD []).map renderComment))
    let content := heDecode pd.description ++ transcript
    match pd.imageUrl with
    | none =>
      { files := [(txtPath, content)], imageTo := none,
        outcome := .error .requestError }
    | some _ =>
      match pd.comments with
      | none =>
        { files := [(txtPath, content)], imageTo := some jpgPath,
          outcome := .error .typeError }
      | some _ =>
        { files := [(txtPath, content)], imageTo := some jpgPath,
          outcome := .ok () }

/-- C10: in the runner.js revision, with comment retrieval disabled
(`--skipcomments`), `getPostData` resolves a record without a `comments`
field; `savePostDataToDisk` nevertheless reads `postData.comments.length`
in its final progress line, after writing the text file, so persisting any
such record rejects instead of completing (with a `TypeError` whenever the
image URL is present, i.e. whenever the `length` read is what throws). -/
theorem skipComments_save_raises (link : String) (page : PostPage)
    (gc : Option (List Comment)) (mp : String → Option String → MDate)
    (pd : PostData) (h : getPostData link page true gc mp = some (.ok pd))
    (heDecode : String → String) (username : String) :
    pd.comments = none ∧
      (savePostDataToDisk heDecode username true pd).files.length = 1 ∧
      (savePostDataToDisk heDecode username true pd).outcome ≠ .ok () ∧
      (pd.imageUrl.isSome →
        (savePostDataToDisk heDecode username true pd).outcome =
          .error .typeError) := by
  have hcom : pd.comments = none := by
    simp only [getPostData] at h
    cases hid : findUrlNumeric link.toList with
    | none =>
      rw [hid] at h
      simp at h
    | some idNum =>
      rw [hid] at h
      cases hm : matchCaption page.description.toList with
      | none =>
        rw [hm] at h
        simp at h
      | some m =>
        rw [hm] at h
        simp only [if_true, Option.some.injEq, Except.ok.injEq] at h
        rw [← h]
  cases himg : pd.imageUrl with
  | none =>
    refine ⟨hcom, ?_, ?_, ?_⟩
    · simp [savePostDataToDisk, hcom, himg]
    · simp [savePostDataToDisk, hcom, himg]
    · intro hsome
      simp at hsome
  | some img =>
    refine ⟨hcom, ?_, ?_, ?_⟩
    · simp [savePostDataToDisk, hcom, himg]
    · simp [savePostDataToDisk, hcom, himg]
    · intro _
      simp [savePostDataToDisk, hcom, himg]

/-- The concrete link for the C10 witness. -/
def c10link : String :=
  "http://www.fotolog.com/alice/123"

/-- The concrete post page for the C10 witness: its description carries a
well-formed "views" caption. -/
def c10page : PostPage :=
  { lang := some "en"
    imageUrl := some "http://img.example/p.jpg"
    description := "a b c 5 Views" }

/-- The moment stub for the C10 witness. -/
def c10mp : String → Option String → MDate :=
  fun _ _ => ⟨"2016", "07", "04"⟩

/-- The record `getPostData` assembles for the C10 witness inputs. -/
def c10pd : PostData :=
  { id := 123
    imageUrl := some "http://img.example/p.jpg"
    description := "a b c 5 Views"
    date := ⟨"2016", "07", "04"⟩
    comments := none }

/-- C10 witness: concrete skip-comments run — the record is assembled
without a `comments` field and persisting it rejects with a `TypeError`
after the text write. -/
theorem skipComments_save_raises_witness :
    getPostData c10link c10page true (some []) c10mp = some (.ok c10pd) ∧
      (c10pd.comments = none ∧
        (savePostDataToDisk id "alice" true c10pd).files.length = 1 ∧
        (savePostDataToDisk id "alice" true c10pd).outcome ≠ .ok () ∧
        (c10pd.imageUrl.isSome →
          (savePostDataToDisk id "alice" true c10pd).outcome =
            .error .typeError)) :=
  ⟨rfl, skipComments_save_raises c10link c10page (some []) c10mp c10pd rfl
    id "alice"⟩

-- Mosaic page links (PageLinkPlanner) ----------------------------------------

/-- `postsPerMosaicPage` (runner.js line 95). -/
def postsPerMosaicPage : Nat := 30

/-- The user's mosaic base URL (runner.js line 98). -/
def mosaicLink (username : String) : String :=
  "http://www.fotolog.com/" ++ username ++ "/mosaic"

/-- One entry of the mosaic links array (runner.js lines 174-178): the bare
mosaic URL at offset 0, `<mosaic>/<offset>` otherwise. -/
def mosaicEntry (username : String) (offset : Nat) : String :=
  if offset = 0 then mosaicLink username
  else mosaicLink username ++ "/" ++ toString offset

lemma mosaic_guard_iff (maxOffset i : Nat) :
    ((i : ℚ) < (maxOffset : ℚ) / (postsPerMosaicPage : ℚ) + 1) ↔
      30 * i < maxOffset + 30 := by
  rw [postsPerMosaicPage]
  rw [show ((30 : Nat) : ℚ) = (30 : ℚ) by norm_num]
  rw [div_add' _ _ _ (by norm_num : (30 : ℚ) ≠ 0)]
  rw [lt_div_iff₀ (by norm_num : (0 : ℚ) < 30)]
  constructor
  · intro hq
    have hcast : ((30 * i : Nat) : ℚ) < ((maxOffset + 30 : Nat) : ℚ) := by
      push_cast
      linarith
    exact_mod_cast hcast
  · intro hn
    have hcast : ((30 * i : Nat) : ℚ) < ((maxOffset + 30 : Nat) : ℚ) := by
      exact_mod_cast hn
    push_cast at hcast
    linarith

/-- The loop of `buildMosaicPagesLinks` (runner.js lines 171-179): JS
evaluates `i < pagesQty` with `pagesQty = maxOffset / 30 + 1` computed in
floating point; for offsets in the realistic range that comparison agrees
with exact rational arithmetic, which is used here. -/
def buildMosaicPagesLinksGo (username : String) (maxOffset : Nat) (i : Nat) :
    List String :=
  if h : (i : ℚ) < (maxOffset : ℚ) / (postsPerMosaicPage : ℚ) + 1 then
    mosaicEntry username (i * postsPerMosaicPage) ::
      buildMosaicPagesLinksGo username maxOffset (i + 1)
  else []
termination_by maxOffset + postsPerMosaicPage - postsPerMosaicPage * i
decreasing_by
  have h30 := (mosaic_guard_iff maxOffset i).mp h
  simp only [postsPerMosaicPage]
  omega

/-- Embedding of `buildMosaicPagesLinks (maxOffset)` (runner.js lines
167-184, part_000 lines 142-159). -/
def buildMosaicPagesLinks (username : String) (maxOffset : Nat) : List String :=
  buildMosaicPagesLinksGo username maxOffset 0

lemma buildMosaicPagesLinksGo_eq (username : String) (maxOffset i : Nat) :
    buildMosaicPagesLinksGo username maxOffset i =
      if 30 * i < maxOffset + 30 then
        mosaicEntry username (i * 30) ::
          buildMosaicPagesLinksGo username maxOffset (i + 1)
      else [] := by
  rw [buildMosaicPagesLinksGo]
  by_cases h : 30 * i < maxOffset + 30
  · rw [if_pos h, dif_pos ((mosaic_guard_iff maxOffset i).mpr h)]
    rfl
  · rw [if_neg h, dif_neg (fun hq => h ((mosaic_guard_iff maxOffset i).mp hq))]

lemma buildMosaicPagesLinksGo_length (username : String) (maxOffset : Nat) :
    ∀ k i, maxOffset + 30 - 30 * i ≤ k →
      (buildMosaicPagesLinksGo username maxOffset i).length =
        (maxOffset + 59) / 30 - i := by
  intro k
  induction k with
  | zero =>
    intro i hk
    rw [buildMosaicPagesLinksGo_eq, if_neg (by omega)]
    simp only [List.length_nil]
    omega
  | succ k ih =>
    intro i hk
    by_cases h : 30 * i < maxOffset + 30
    · rw [buildMosaicPagesLinksGo_eq, if_pos h]
      rw [List.length_cons, ih (i + 1) (by omega)]
      omega
    · rw [buildMosaicPagesLinksGo_eq, if_neg h]
      simp only [List.length_nil]
      omega

lemma buildMosaicPagesLinks_length (username : String) (maxOffset : Nat) :
    (buildMosaicPagesLinks username maxOffset).length = (maxOffset + 59) / 30 := by
  have h := buildMosaicPagesLinksGo_length username maxOffset (maxOffset + 30) 0
    (by omega)
  simpa [buildMosaicPagesLinks] using h

/-- C3 counterexample: `maxOffset = 31` is not a multiple of 30, yet the
loop `for (i = 0; i < 31/30 + 1; i++)` runs three times (`2 < 2.033…`), so
`buildMosaicPagesLinks` produces 3 links — not `floor(31/30) + 1 = 2` as the
claim states. -/
theorem buildMosaicPagesLinks_floor_counterexample :
    (buildMosaicPagesLinks "alice" 31).length ≠ 31 / 30 + 1 := by
  rw [buildMosaicPagesLinks_length]
  decide

/-- C3 amended: when `maxOffset` is not a multiple of 30, the non-integral
`pagesQty = maxOffset/30 + 1` is effectively CEILED by the loop condition
`i < pagesQty`, so `buildMosaicPagesLinks` produces exactly
`floor(maxOffset/30) + 2` links (that is, `ceil(maxOffset/30) + 1`). -/
theorem buildMosaicPagesLinks_notMultiple_length (username : String)
    (maxOffset : Nat) (h : ¬(30 ∣ maxOffset)) :
    (buildMosaicPagesLinks username maxOffset).length = maxOffset / 30 + 2 := by
  rw [buildMosaicPagesLinks_length]
  omega

/-- C3 amended witness at `maxOffset = 31`. -/
theorem buildMosaicPagesLinks_notMultiple_length_witness :
    ¬(30 ∣ 31) ∧ (buildMosaicPagesLinks "alice" 31).length = 31 / 30 + 2 :=
  ⟨by decide, buildMosaicPagesLinks_notMultiple_length "alice" 31 (by decide)⟩

-- Mosaic pagination marker (getMosaicPagesLinks) ------------------------------

/-- The pagination marker read from the first mosaic page: whether the
`#pagination` element exists, and the hrefs of its anchors in document order
(empty when the element is absent, since `find` on an empty selection
matches nothing). `a:last-of-type` is read as the last anchor and
`a:nth-last-of-type(2)` as the second-to-last one, matching the flat
structure of the pagination widget. -/
structure PaginationDom where
  present : Bool
  anchors : List String

/-- `getUrlNumericPart` applied to a possibly-undefined href:
`undefined.match` throws a `TypeError`. -/
def getUrlNumericPartOpt : Option String → Except JsError Nat
  | none => .error .typeError
  | some s => getUrlNumericPart s

/-- Embedding of `getMosaicPagesLinks ($, username)` from runner.js lines
132-162: no pagination element or zero anchors gives `maxOffset = 0`;
exactly one anchor gives `maxOffset = 0`; a last anchor equal to the
offset-30 link reads the max offset from the second-to-last anchor;
otherwise it is read from the last anchor. A throw while reading the offset
propagates (`.error`); otherwise the mosaic links are built from the
offset. -/
def getMosaicPagesLinks (username : String) (p : PaginationDom) :
    Except JsError (List String) :=
  let lastLink := p.anchors.getLast?
  let maxOffsetE : Except JsError Nat :=
    if p.present = false ∨ p.anchors.length = 0 then .ok 0
    else if p.anchors.length = 1 then .ok 0
    else if lastLink = some (mosaicLink username ++ "/30") then
      getUrlNumericPartOpt p.anchors[p.anchors.length - 2]?
    else getUrlNumericPartOpt lastLink
  match maxOffsetE with
  | .error e => .error e
  | .ok maxOffset => .ok (buildMosaicPagesLinks username maxOffset)

lemma buildMosaicPagesLinks_zero (username : String) :
    buildMosaicPagesLinks username 0 = [mosaicLink username] := by
  rw [buildMosaicPagesLinks, buildMosaicPagesLinksGo_eq, if_pos (by omega),
    buildMosaicPagesLinksGo_eq, if_neg (by omega)]
  simp [mosaicEntry]

/-- C7: for every pagination marker with zero anchors (including an absent
pagination element) or exactly one anchor, the planner of the runner.js
revision returns exactly one listing-page link — the bare offset-0 mosaic
URL. -/
theorem getMosaicPagesLinks_single (username : String) (p : PaginationDom)
    (h : p.anchors.length ≤ 1) :
    getMosaicPagesLinks username p = .ok [mosaicLink username] := by
  have hz := buildMosaicPagesLinks_zero username
  simp only [getMosaicPagesLinks]
  rcases Nat.lt_or_ge p.anchors.length 1 with hl | hl
  · have h0 : p.anchors.length = 0 := by omega
    simp [h0, hz]
  · have h1 : p.anchors.length = 1 := by omega
    by_cases hp : p.present = false
    · simp [hp, h1, hz]
    · simp [hp, h1, hz]

/-- C7 witness: an absent pagination element yields exactly the bare mosaic
URL. -/
theorem getMosaicPagesLinks_single_witness :
    getMosaicPagesLinks "alice" { present := false, anchors := [] } =
      .ok ["http://www.fotolog.com/alice/mosaic"] :=
  (getMosaicPagesLinks_single "alice" { present := false, anchors := [] }
    (by decide)).trans rfl

end SaveMyFotolog
